import Mathlib

/-!
Verification development for a calculator widget (single React component).

The component's pure logic is shallowly embedded here:
* JS numbers are modelled exactly as unreduced rationals (`Q`, an
  integer numerator over a natural denominator) together with the IEEE
  special values `NaN`, `Infinity` and `-Infinity` (`JSNum`).  All
  arithmetic the claims exercise (integer-valued sums, products,
  divisions by powers of ten, comparisons, division by zero) is exact
  on doubles, so the rational model agrees with the platform there.
  The sign of zero is not tracked.
* `Number.prototype.toString` is modelled as the plain exact decimal
  expansion (with a generous digit budget); the platform switches to
  exponential notation and shortest-roundtrip rounding only at
  magnitudes and precisions no claim exercises.
* Strings are Lean `String`s; the grouping-separator regex
  `\B(?=(\d{3})+(?!\d))` is modelled character by character.
-/

namespace Calculator

/-- Emotion enum from the source (`'happy' | 'neutral' | 'sad' | 'excited'`). -/
inductive Emotion
  | happy
  | neutral
  | sad
  | excited
deriving DecidableEq

/-- Mode enum from the source (`'basic' | 'scientific'`). -/
inductive Mode
  | basic
  | scientific
deriving DecidableEq

/-- Angle unit from the source (`'DEG' | 'RAD'`). -/
inductive AngleUnit
  | DEG
  | RAD
deriving DecidableEq

/-- Exact rational, kept unreduced so every operation is plain integer
arithmetic that the kernel can evaluate.  All constructors used by the
development keep `den` positive. -/
structure Q where
  num : Int
  den : Nat
deriving DecidableEq

/-- Embed an integer constant. -/
def Q.ofInt (n : Int) : Q := ⟨n, 1⟩

/-- Exact addition (common-denominator form). -/
def Q.add (a b : Q) : Q := ⟨a.num * b.den + b.num * a.den, a.den * b.den⟩

/-- Exact subtraction (common-denominator form). -/
def Q.sub (a b : Q) : Q := ⟨a.num * b.den - b.num * a.den, a.den * b.den⟩

/-- Exact multiplication. -/
def Q.mul (a b : Q) : Q := ⟨a.num * b.num, a.den * b.den⟩

/-- Strict value comparison by cross multiplication (valid when both
denominators are positive, which the development maintains). -/
def Q.blt (a b : Q) : Bool := decide (a.num * (b.den : Int) < b.num * (a.den : Int))

/-- Non-strict value comparison by cross multiplication. -/
def Q.ble (a b : Q) : Bool := decide (a.num * (b.den : Int) ≤ b.num * (a.den : Int))

/-- Value equality of two unreduced rationals (cross multiplication). -/
def Q.valEq (a b : Q) : Prop := a.num * (b.den : Int) = b.num * (a.den : Int)

instance (a b : Q) : Decidable (Q.valEq a b) := by
  unfold Q.valEq
  infer_instance

/-- JS double, idealized: an exact rational or one of the special
values `NaN`, `Infinity`, `-Infinity`. -/
inductive JSNum
  | finite (q : Q)
  | nan
  | inf
  | negInf
deriving DecidableEq

namespace JSNum

/-- JS addition on the model (IEEE special-value rules, exact rationals
otherwise). -/
def add : JSNum → JSNum → JSNum
  | nan, _ => nan
  | _, nan => nan
  | finite a, finite b => finite (a.add b)
  | finite _, inf => inf
  | finite _, negInf => negInf
  | inf, finite _ => inf
  | inf, inf => inf
  | inf, negInf => nan
  | negInf, finite _ => negInf
  | negInf, inf => nan
  | negInf, negInf => negInf

/-- JS subtraction on the model, exact on the rationals.  IEEE double
subtraction rounds: in particular `n - 1` equals `n` once the spacing
of doubles at `n` exceeds one (magnitudes above `2 ^ 53`), while below
that threshold subtracting one is exact and agrees with this model.
Facts driven by repeated subtraction are therefore only claimed below
that threshold. -/
def sub : JSNum → JSNum → JSNum
  | nan, _ => nan
  | _, nan => nan
  | finite a, finite b => finite (a.sub b)
  | finite _, inf => negInf
  | finite _, negInf => inf
  | inf, finite _ => inf
  | inf, inf => nan
  | inf, negInf => inf
  | negInf, finite _ => negInf
  | negInf, inf => negInf
  | negInf, negInf => nan

/-- JS multiplication on the model (`0 * Infinity = NaN`). -/
def mul : JSNum → JSNum → JSNum
  | nan, _ => nan
  | _, nan => nan
  | finite a, finite b => finite (a.mul b)
  | finite a, inf => if a.num = 0 then nan else if 0 < a.num then inf else negInf
  | finite a, negInf => if a.num = 0 then nan else if 0 < a.num then negInf else inf
  | inf, finite b => if b.num = 0 then nan else if 0 < b.num then inf else negInf
  | negInf, finite b => if b.num = 0 then nan else if 0 < b.num then negInf else inf
  | inf, inf => inf
  | inf, negInf => negInf
  | negInf, inf => negInf
  | negInf, negInf => inf

/-- JS division on the model: division by (unsigned) zero yields the
signed infinity of the numerator, `0 / 0` yields `NaN`. -/
def div : JSNum → JSNum → JSNum
  | nan, _ => nan
  | _, nan => nan
  | finite a, finite b =>
      if b.num = 0 then
        (if a.num = 0 then nan else if 0 < a.num then inf else negInf)
      else
        finite (if 0 < b.num then ⟨a.num * b.den, a.den * b.num.natAbs⟩
                else ⟨-(a.num * b.den), a.den * b.num.natAbs⟩)
  | finite _, inf => finite ⟨0, 1⟩
  | finite _, negInf => finite ⟨0, 1⟩
  | inf, finite b => if b.num < 0 then negInf else inf
  | negInf, finite b => if b.num < 0 then inf else negInf
  | inf, inf => nan
  | inf, negInf => nan
  | negInf, inf => nan
  | negInf, negInf => nan

/-- The JS `<` comparison: any comparison with `NaN` is false. -/
def lt : JSNum → JSNum → Bool
  | nan, _ => false
  | _, nan => false
  | finite a, finite b => a.blt b
  | finite _, inf => true
  | finite _, negInf => false
  | inf, _ => false
  | negInf, negInf => false
  | negInf, _ => true

/-- The JS `<=` comparison: any comparison with `NaN` is false. -/
def le : JSNum → JSNum → Bool
  | nan, _ => false
  | _, nan => false
  | finite a, finite b => a.ble b
  | finite _, inf => true
  | finite _, negInf => false
  | inf, inf => true
  | inf, _ => false
  | negInf, _ => true

/-- The JS `>` comparison. -/
def gt (a b : JSNum) : Bool := lt b a

/-- The JS `isNaN` test. -/
def isNaNB : JSNum → Bool
  | nan => true
  | _ => false

/-- The JS `isFinite` test. -/
def isFiniteB : JSNum → Bool
  | finite _ => true
  | _ => false

end JSNum

/-- Well-formedness of a modelled JS number: a finite value has a
positive denominator.  Every number the embedded code constructs
satisfies this. -/
def JSNum.DenPos : JSNum → Prop
  | JSNum.finite q => 0 < q.den
  | _ => True

/-- The regex class `\d`. -/
def isDigitCh (c : Char) : Bool := '0' ≤ c && c ≤ '9'

/-- The regex word-character class `\w` (used by the `\B` assertion). -/
def isWordCh (c : Char) : Bool :=
  isDigitCh c || ('a' ≤ c && c ≤ 'z') || ('A' ≤ c && c ≤ 'Z') || c == '_'

/-- Length of the maximal digit run starting at the head of the list. -/
def digitRun : List Char → Nat
  | [] => 0
  | c :: cs => if isDigitCh c then digitRun cs + 1 else 0

/-- Walk the integer part inserting a comma exactly at the zero-width
positions matched by `\B(?=(\d{3})+(?!\d))`: the previous character is
a word character (`\B` before a digit) and the digit run starting here
has positive length divisible by three (the lookahead). -/
def commaAux (prev : Char) : List Char → List Char
  | [] => []
  | c :: cs =>
      let L := digitRun (c :: cs)
      if isWordCh prev && (L % 3 == 0) && !(L == 0) then
        ',' :: c :: commaAux c cs
      else
        c :: commaAux c cs

/-- Insert grouping commas into the integer part, as the source regex
does (no match is possible at position 0). -/
def insertCommasL : List Char → List Char
  | [] => []
  | c :: cs => c :: commaAux c cs

/-- JS `String.prototype.split('.')` on a character list. -/
def splitDot : List Char → List (List Char)
  | [] => [[]]
  | c :: cs =>
      if c = '.' then
        [] :: splitDot cs
      else
        match splitDot cs with
        | [] => [[c]]
        | p :: ps => (c :: p) :: ps

/-- Rejoin the parts produced by `splitDot`, reinserting the dots. -/
def joinDot : List (List Char) → List Char
  | [] => []
  | [p] => p
  | p :: ps => p ++ '.' :: joinDot ps

/-- The body of `formatNumber` on character lists: split on dots,
insert commas in `parts[0]`, and rebuild from `parts[0]` and
`parts[1]` only (exactly as the template literal in the source does). -/
def formatL (l : List Char) : List Char :=
  match splitDot l with
  | [] => []
  | [p0] => insertCommasL p0
  | p0 :: p1 :: _ => insertCommasL p0 ++ '.' :: p1

/-- Source `formatNumber`: thousands grouping of the integer part. -/
def formatNumber (num : String) : String := ⟨formatL num.data⟩

/-- The body of `unformatNumber` on character lists: drop every comma
(JS `replace(/,/g, '')`). -/
def unformatL (l : List Char) : List Char := l.filter (fun c => !(c == ','))

/-- Source `unformatNumber`: strip all grouping commas. -/
def unformatNumber (num : String) : String := ⟨unformatL num.data⟩

/-- Optional leading sign of a JS numeric literal. -/
def parseSign : List Char → Bool × List Char
  | '-' :: t => (true, t)
  | '+' :: t => (false, t)
  | l => (false, l)

/-- Decimal value of a digit string. -/
def digitsVal (l : List Char) : Nat :=
  l.foldl (fun acc c => acc * 10 + (c.toNat - 48)) 0

/-- Exponent part after the `e`/`E` marker; an incomplete exponent is
ignored, as `parseFloat`'s longest-valid-prefix rule dictates. -/
def parseExpAfter (t : List Char) : Int :=
  let st := parseSign t
  let eD := st.2.takeWhile isDigitCh
  if eD.isEmpty then 0
  else if st.1 then -(digitsVal eD : Int) else (digitsVal eD : Int)

/-- Optional exponent part of a JS numeric literal. -/
def parseExp : List Char → Int
  | 'e' :: t => parseExpAfter t
  | 'E' :: t => parseExpAfter t
  | _ => 0

/-- Core of `parseFloat` after whitespace skipping: sign, `Infinity`,
or digits with optional fraction and exponent; no digits means `NaN`. -/
def parseFloatCore (l : List Char) : JSNum :=
  let sg := parseSign l
  let neg := sg.1
  let l1 := sg.2
  if l1.take 8 = "Infinity".data then (if neg then JSNum.negInf else JSNum.inf)
  else
    let intD := l1.takeWhile isDigitCh
    let r1 := l1.drop intD.length
    let fracD := match r1 with
      | '.' :: t => t.takeWhile isDigitCh
      | _ => []
    let r2 := match r1 with
      | '.' :: t => t.drop fracD.length
      | _ => r1
    if intD.isEmpty && fracD.isEmpty then JSNum.nan
    else
      let e := parseExp r2
      let mant : Nat := digitsVal intD * 10 ^ fracD.length + digitsVal fracD
      let mag : Q :=
        if 0 ≤ e then ⟨(mant : Int) * ((10 ^ e.toNat : Nat) : Int), 10 ^ fracD.length⟩
        else ⟨(mant : Int), 10 ^ fracD.length * 10 ^ (-e).toNat⟩
      JSNum.finite (if neg then ⟨-mag.num, mag.den⟩ else mag)

/-- The JS whitespace characters `parseFloat` skips (the common ones). -/
def jsWhitespace (c : Char) : Bool := c == ' ' || c == '\t' || c == '\n' || c == '\r'

/-- JS `parseFloat`, idealized to exact rationals. -/
def parseFloat (s : String) : JSNum := parseFloatCore (s.data.dropWhile jsWhitespace)

/-- Decimal digits of a natural number, most significant first; the
fuel argument only serves structural termination and any fuel above
the digit count is enough. -/
def natDigitsAux : Nat → Nat → List Char
  | 0, _ => []
  | fuel + 1, n =>
      if n < 10 then [Nat.digitChar n]
      else natDigitsAux fuel (n / 10) ++ [Nat.digitChar (n % 10)]

/-- Decimal string of a natural number. -/
def natToStr (n : Nat) : String := ⟨natDigitsAux (n + 1) n⟩

/-- Number of decimal digits of a natural number. -/
def digitCount (n : Nat) : Nat := (natDigitsAux (n + 1) n).length

/-- Fraction digits of `rem / den` by long division, stopping when the
remainder vanishes or the fuel runs out. -/
def fracAux : Nat → Nat → Nat → List Char
  | 0, _, _ => []
  | fuel + 1, rem, den =>
      if rem = 0 then []
      else Nat.digitChar (rem * 10 / den) :: fracAux fuel (rem * 10 % den) den

/-- JS `Number.prototype.toString`, idealized to the exact plain
decimal expansion (the special values print their JS names). -/
def jsToString : JSNum → String
  | JSNum.nan => "NaN"
  | JSNum.inf => "Infinity"
  | JSNum.negInf => "-Infinity"
  | JSNum.finite q =>
      if q.num = 0 then "0"
      else
        let sign := if q.num < 0 then "-" else ""
        let n := q.num.natAbs
        let i := n / q.den
        let rem := n % q.den
        let frac := fracAux 120 rem q.den
        sign ++ natToStr i ++ (if frac.isEmpty then "" else "." ++ (⟨frac⟩ : String))

/-- Compare `n / d` against `10 ^ e` without leaving the integers. -/
def ratLtPow10 (n d : Nat) (e : Int) : Bool :=
  if 0 ≤ e then decide (n < d * 10 ^ e.toNat) else decide (n * 10 ^ (-e).toNat < d)

/-- Left-pad with zeros to the requested width. -/
def padLeftZeros (l : List Char) (k : Nat) : List Char :=
  List.replicate (k - l.length) '0' ++ l

/-- JS `toExponential(8)`: normalized scientific notation with eight
fractional digits (round half up in the model; the rounding mode at
ties is immaterial to the development). -/
def toExponential8 : JSNum → String
  | JSNum.nan => "NaN"
  | JSNum.inf => "Infinity"
  | JSNum.negInf => "-Infinity"
  | JSNum.finite q =>
      if q.num = 0 then "0.00000000e+0"
      else
        let sign := if q.num < 0 then "-" else ""
        let n := q.num.natAbs
        let d := q.den
        let e0 : Int := (digitCount n : Int) - (digitCount d : Int)
        let e1 : Int := if ratLtPow10 n d e0 then e0 - 1 else e0
        let scale : Int := 8 - e1
        let ab : Nat × Nat :=
          if 0 ≤ scale then (n * 10 ^ scale.toNat, d) else (n, d * 10 ^ (-scale).toNat)
        let m0 := (2 * ab.1 + ab.2) / (2 * ab.2)
        let me : Nat × Int := if 10 ^ 9 ≤ m0 then (m0 / 10, e1 + 1) else (m0, e1)
        let first := me.1 / 10 ^ 8
        let rest := me.1 % 10 ^ 8
        let expStr :=
          if 0 ≤ me.2 then "+" ++ natToStr me.2.toNat else "-" ++ natToStr (-me.2).toNat
        sign ++ natToStr first ++ "." ++
          (⟨padLeftZeros (natDigitsAux (rest + 1) rest) 8⟩ : String) ++ "e" ++ expStr

/-- Source digit cap `MAX_DIGITS`. -/
def MAX_DIGITS : Nat := 16

/-- Source `getEmotion`: magnitude rule with strict comparisons. -/
def getEmotion (result : JSNum) : Emotion :=
  if result.gt (JSNum.finite (Q.ofInt 1000)) then Emotion.excited
  else if result.gt (JSNum.finite (Q.ofInt 100)) then Emotion.happy
  else if result.lt (JSNum.finite (Q.ofInt 0)) then Emotion.sad
  else Emotion.neutral

/-- The source `CalculatorState` record. -/
structure CalculatorState where
  display : String
  previousValue : String
  operation : Option String
  emotion : Emotion
  mode : Mode
  memory : JSNum
  angleUnit : AngleUnit
deriving DecidableEq

/-- The mount-time initial state. -/
def initialState : CalculatorState :=
  { display := "0"
  , previousValue := ""
  , operation := none
  , emotion := Emotion.neutral
  , mode := Mode.basic
  , memory := JSNum.finite (Q.ofInt 0)
  , angleUnit := AngleUnit.DEG }

/-- Source `handleNumber`: digit entry with the 16-character cap on the
unformatted display; the sentinel display `"0"` is replaced rather
than appended to; emotion resets to neutral. -/
def handleNumber (num : String) (prev : CalculatorState) : CalculatorState :=
  let currentNum := unformatNumber prev.display
  if currentNum.length ≥ MAX_DIGITS then prev
  else
    let newDisplay := if prev.display = "0" then num else currentNum ++ num
    { prev with display := formatNumber newDisplay, emotion := Emotion.neutral }

/-- Source `handleOperation`: capture the display as the left operand,
store the operator, reset display and emotion. -/
def handleOperation (op : String) (prev : CalculatorState) : CalculatorState :=
  { prev with
      previousValue := prev.display
      operation := some op
      display := "0"
      emotion := Emotion.neutral }

/-- The switch inside `calculate`: the raw numeric result of the
pending operation, or `none` for the default branch. -/
def calcRawResult (s : CalculatorState) : Option JSNum :=
  let prevNum := parseFloat (unformatNumber s.previousValue)
  let currentNum := parseFloat (unformatNumber s.display)
  match s.operation with
  | some op =>
      if op = "+" then some (prevNum.add currentNum)
      else if op = "-" then some (prevNum.sub currentNum)
      else if op = "×" then some (prevNum.mul currentNum)
      else if op = "÷" then some (prevNum.div currentNum)
      else none
  | none => none

/-- Source `calculate`: evaluate the pending operation; if the decimal
string of the result is longer than the cap, re-round it through
`toExponential(8)`; clear the pending operation and recompute the
emotion. -/
def calculate (s : CalculatorState) : CalculatorState :=
  match calcRawResult s with
  | none => s
  | some r =>
      let resultString := jsToString r
      let result := if resultString.length > MAX_DIGITS then parseFloat (toExponential8 r) else r
      { s with
          display := formatNumber (jsToString result)
          previousValue := ""
          operation := none
          emotion := getEmotion result }

/-- JS truthiness of the pending-operation test
`prev.previousValue && prev.operation`. -/
def pendingB (s : CalculatorState) : Bool :=
  !(s.previousValue == "") &&
    (match s.operation with
     | some op => !(op == "")
     | none => false)

/-- Source `handlePercent`: with a pending operation the display
becomes `previousValue * display / 100`; otherwise `display / 100`;
nothing else changes. -/
def handlePercent (prev : CalculatorState) : CalculatorState :=
  let currentNum := parseFloat (unformatNumber prev.display)
  if pendingB prev then
    let base := parseFloat (unformatNumber prev.previousValue)
    let percentValue := (base.mul currentNum).div (JSNum.finite (Q.ofInt 100))
    { prev with display := formatNumber (jsToString percentValue) }
  else
    let percentValue := currentNum.div (JSNum.finite (Q.ofInt 100))
    { prev with display := formatNumber (jsToString percentValue) }

/-- Source `clear`: reset display, pending operation and emotion. -/
def clearState (prev : CalculatorState) : CalculatorState :=
  { prev with
      display := "0"
      previousValue := ""
      operation := none
      emotion := Emotion.neutral }

/-- Shared tail of `handleScientific` (after the function switch):
apply the chosen numeric function to the parsed display; a `NaN` or
non-finite result gives the `"Error"` sentinel and a sad emotion,
otherwise the result is formatted and the emotion recomputed.  The
argument `f` is the function selected by the switch. -/
def handleScientificWith (f : JSNum → JSNum) (prev : CalculatorState) : CalculatorState :=
  let result := f (parseFloat (unformatNumber prev.display))
  if result.isNaNB || !result.isFiniteB then
    { prev with display := "Error", emotion := Emotion.sad }
  else
    { prev with display := formatNumber (jsToString result), emotion := getEmotion result }

/-- Source `Math.sqrt` model: `NaN` on negative (and `NaN`) input,
`Infinity` on `Infinity`.  On a nonnegative finite double the platform
returns some finite nonnegative double; only that finiteness matters
to the development, so a rational square-root approximation stands in
for the exact value here. -/
def jsSqrt : JSNum → JSNum
  | JSNum.nan => JSNum.nan
  | JSNum.negInf => JSNum.nan
  | JSNum.inf => JSNum.inf
  | JSNum.finite q =>
      if q.num < 0 then JSNum.nan
      else JSNum.finite ⟨Int.sqrt q.num, Nat.sqrt q.den⟩

/-- The `'inv'` case of the scientific switch: `1 / x`. -/
def jsInv (x : JSNum) : JSNum := (JSNum.finite (Q.ofInt 1)).div x

/-- Source `toggleMode`. -/
def toggleMode (prev : CalculatorState) : CalculatorState :=
  { prev with mode := if prev.mode = Mode.basic then Mode.scientific else Mode.basic }

/-- Source `toggleAngleUnit`. -/
def toggleAngleUnit (prev : CalculatorState) : CalculatorState :=
  { prev with angleUnit := if prev.angleUnit = AngleUnit.DEG then AngleUnit.RAD else AngleUnit.DEG }

/-- Source `factorial`, with an explicit fuel argument standing for the
call-stack budget: `none` means the recursion did not finish within
the given fuel.  `factorialFuel fuel x` is independent of `fuel` once
large enough, so `∃ fuel, (factorialFuel fuel x).isSome` expresses
termination of the JS recursion on `x`. -/
def factorialFuel : Nat → JSNum → Option JSNum
  | 0, _ => none
  | fuel + 1, n =>
      if n.lt (JSNum.finite (Q.ofInt 0)) then some JSNum.nan
      else if n.le (JSNum.finite (Q.ofInt 1)) then some (JSNum.finite (Q.ofInt 1))
      else (factorialFuel fuel (n.sub (JSNum.finite (Q.ofInt 1)))).map (fun r => n.mul r)

/-- The decimal-point button/key handler from the source: append `.`
to the unformatted display unless one is already present; no cap
check, no emotion reset. -/
def decimalPoint (prev : CalculatorState) : CalculatorState :=
  let currentNum := unformatNumber prev.display
  if currentNum.data.contains '.' then prev
  else { prev with display := formatNumber (currentNum ++ ".") }

/-- The backspace button/key handler from the source: drop the last
unformatted character, falling back to `"0"` when empty. -/
def backspace (prev : CalculatorState) : CalculatorState :=
  let currentNum := unformatNumber prev.display
  let t := currentNum.data.dropLast
  { prev with display := formatNumber (if t.isEmpty then "0" else ⟨t⟩) }

/-- The ten digit-button arguments. -/
def digitStrs : List String := ["0", "1", "2", "3", "4", "5", "6", "7", "8", "9"]

/-- The four operator arguments the buttons and keyboard produce. -/
def opStrs : List String := ["+", "-", "×", "÷"]

/-- States reachable from the mount-time state by the engine
operations.  The scientific step is generic in the numeric function,
which soundly covers every case of the function switch (including the
transcendental ones not modelled exactly). -/
inductive Reachable : CalculatorState → Prop
  | init : Reachable initialState
  | num : ∀ s d, Reachable s → d ∈ digitStrs → Reachable (handleNumber d s)
  | op : ∀ s o, Reachable s → o ∈ opStrs → Reachable (handleOperation o s)
  | calcStep : ∀ s, Reachable s → Reachable (calculate s)
  | pct : ∀ s, Reachable s → Reachable (handlePercent s)
  | clr : ∀ s, Reachable s → Reachable (clearState s)
  | dec : ∀ s, Reachable s → Reachable (decimalPoint s)
  | back : ∀ s, Reachable s → Reachable (backspace s)
  | sci : ∀ s f, Reachable s → Reachable (handleScientificWith f s)
  | mode : ∀ s, Reachable s → Reachable (toggleMode s)
  | angle : ∀ s, Reachable s → Reachable (toggleAngleUnit s)

/-- States reachable using only the entry-level operations: digit
entry, decimal point, backspace, operator selection, clear and the two
toggles. -/
inductive ReachEntry : CalculatorState → Prop
  | init : ReachEntry initialState
  | num : ∀ s d, ReachEntry s → d ∈ digitStrs → ReachEntry (handleNumber d s)
  | op : ∀ s o, ReachEntry s → o ∈ opStrs → ReachEntry (handleOperation o s)
  | clr : ∀ s, ReachEntry s → ReachEntry (clearState s)
  | dec : ∀ s, ReachEntry s → ReachEntry (decimalPoint s)
  | back : ∀ s, ReachEntry s → ReachEntry (backspace s)
  | mode : ∀ s, ReachEntry s → ReachEntry (toggleMode s)
  | angle : ∀ s, ReachEntry s → ReachEntry (toggleAngleUnit s)

end Calculator

namespace Calculator

/-! ### String-layer lemmas: comma stripping, dot splitting, round trips -/

theorem comma_not_mem_unformatL (l : List Char) : ',' ∉ unformatL l := by
  simp [unformatL, List.mem_filter]

theorem unformatL_eq_self {l : List Char} (h : ',' ∉ l) : unformatL l = l := by
  unfold unformatL
  rw [List.filter_eq_self]
  intro c hc
  simp only [Bool.not_eq_true', beq_eq_false_iff_ne, ne_eq]
  intro hcc
  exact h (hcc ▸ hc)

theorem unformatL_append (x y : List Char) :
    unformatL (x ++ y) = unformatL x ++ unformatL y := by
  simp [unformatL, List.filter_append]

theorem unformatL_cons_comma (xs : List Char) : unformatL (',' :: xs) = unformatL xs := by
  simp [unformatL]

theorem unformatL_cons_ne {c : Char} (hc : c ≠ ',') (xs : List Char) :
    unformatL (c :: xs) = c :: unformatL xs := by
  simp [unformatL, List.filter_cons, hc]

theorem commaAux_strip (prev : Char) {cs : List Char} (h : ',' ∉ cs) :
    unformatL (commaAux prev cs) = cs := by
  induction cs generalizing prev with
  | nil => rfl
  | cons c cs ih =>
    have hc : c ≠ ',' := fun hcc => h (hcc ▸ List.mem_cons_self c cs)
    have hcs : ',' ∉ cs := fun hm => h (List.mem_cons_of_mem c hm)
    show unformatL (commaAux prev (c :: cs)) = c :: cs
    unfold commaAux
    simp only []
    split
    · rw [unformatL_cons_comma, unformatL_cons_ne hc, ih c hcs]
    · rw [unformatL_cons_ne hc, ih c hcs]

theorem insertCommasL_strip {l : List Char} (h : ',' ∉ l) :
    unformatL (insertCommasL l) = l := by
  cases l with
  | nil => rfl
  | cons c cs =>
    have hc : c ≠ ',' := fun hcc => h (hcc ▸ List.mem_cons_self c cs)
    have hcs : ',' ∉ cs := fun hm => h (List.mem_cons_of_mem c hm)
    show unformatL (c :: commaAux c cs) = c :: cs
    rw [unformatL_cons_ne hc, commaAux_strip c hcs]

theorem splitDot_ne_nil (l : List Char) : splitDot l ≠ [] := by
  cases l with
  | nil => simp [splitDot]
  | cons c cs =>
    unfold splitDot
    split
    · simp
    · split <;> simp

theorem splitDot_cons_dot (cs : List Char) : splitDot ('.' :: cs) = [] :: splitDot cs := by
  simp [splitDot]

theorem splitDot_cons_ne {c : Char} {cs p : List Char} {ps : List (List Char)}
    (hc : c ≠ '.') (hps : splitDot cs = p :: ps) :
    splitDot (c :: cs) = (c :: p) :: ps := by
  simp only [splitDot]
  rw [if_neg hc, hps]

theorem joinDot_splitDot (l : List Char) : joinDot (splitDot l) = l := by
  induction l with
  | nil => rfl
  | cons c cs ih =>
    obtain ⟨p, ps, hps⟩ := List.exists_cons_of_ne_nil (splitDot_ne_nil cs)
    rw [hps] at ih
    by_cases hc : c = '.'
    · subst hc
      rw [splitDot_cons_dot, hps]
      show [] ++ '.' :: joinDot (p :: ps) = '.' :: cs
      simp [ih]
    · rw [splitDot_cons_ne hc hps]
      cases ps with
      | nil =>
        show c :: p = c :: cs
        simpa using ih
      | cons q qs =>
        show (c :: p) ++ '.' :: joinDot (q :: qs) = c :: cs
        simpa using ih

theorem length_le_joinDot (p : List Char) (ps : List (List Char)) :
    p.length ≤ (joinDot (p :: ps)).length := by
  cases ps with
  | nil => simp [joinDot]
  | cons q qs =>
    show p.length ≤ (p ++ '.' :: joinDot (q :: qs)).length
    simp

theorem mem_joinDot_head {x : Char} {p : List Char} (ps : List (List Char)) (h : x ∈ p) :
    x ∈ joinDot (p :: ps) := by
  cases ps with
  | nil => exact h
  | cons q qs => exact List.mem_append_left _ h

theorem splitDot_no_dot {l : List Char} (h : '.' ∉ l) : splitDot l = [l] := by
  induction l with
  | nil => rfl
  | cons c cs ih =>
    have hc : c ≠ '.' := fun hcc => h (hcc ▸ List.mem_cons_self c cs)
    have hcs : '.' ∉ cs := fun hm => h (List.mem_cons_of_mem c hm)
    unfold splitDot
    rw [if_neg hc, ih hcs]

theorem splitDot_prepend {a : List Char} (b : List Char) (h : '.' ∉ a) :
    splitDot (a ++ '.' :: b) = a :: splitDot b := by
  induction a with
  | nil => exact splitDot_cons_dot b
  | cons c cs ih =>
    have hc : c ≠ '.' := fun hcc => h (hcc ▸ List.mem_cons_self c cs)
    have hcs : '.' ∉ cs := fun hm => h (List.mem_cons_of_mem c hm)
    show splitDot (c :: (cs ++ '.' :: b)) = (c :: cs) :: splitDot b
    exact splitDot_cons_ne hc (ih hcs)

theorem first_dot_decomp {l : List Char} (h : '.' ∈ l) :
    ∃ a b, l = a ++ '.' :: b ∧ '.' ∉ a := by
  induction l with
  | nil => cases h
  | cons c cs ih =>
    by_cases hc : c = '.'
    · subst hc
      exact ⟨[], cs, rfl, by simp⟩
    · have hmem : '.' ∈ cs := by
        cases List.mem_cons.mp h with
        | inl h1 => exact absurd h1.symm hc
        | inr h2 => exact h2
      obtain ⟨a, b, hab, ha⟩ := ih hmem
      refine ⟨c :: a, b, by rw [hab]; rfl, ?_⟩
      intro hm
      cases List.mem_cons.mp hm with
      | inl h1 => exact hc h1.symm
      | inr h2 => exact ha h2

theorem unformat_format_len_le {l : List Char} (h : ',' ∉ l) :
    (unformatL (formatL l)).length ≤ l.length := by
  unfold formatL
  cases hsp : splitDot l with
  | nil => exact absurd hsp (splitDot_ne_nil l)
  | cons p0 rest =>
    have hjoin := joinDot_splitDot l
    rw [hsp] at hjoin
    cases rest with
    | nil =>
      have hp0 : p0 = l := hjoin
      subst hp0
      rw [insertCommasL_strip h]
    | cons p1 rest2 =>
      have hl : p0 ++ '.' :: joinDot (p1 :: rest2) = l := hjoin
      have hp0 : ',' ∉ p0 := fun hm => h (hl ▸ List.mem_append_left _ hm)
      have hp1 : ',' ∉ p1 := fun hm =>
        h (hl ▸ List.mem_append_right _ (List.mem_cons_of_mem _ (mem_joinDot_head rest2 hm)))
      rw [unformatL_append, insertCommasL_strip hp0,
        unformatL_cons_ne (by decide) p1, unformatL_eq_self hp1]
      have h1 : p1.length ≤ (joinDot (p1 :: rest2)).length := length_le_joinDot p1 rest2
      have h2 : l.length = p0.length + 1 + (joinDot (p1 :: rest2)).length := by
        rw [← hl]; simp; omega
      simp only [List.length_append, List.length_cons]
      omega

theorem unformat_format_eq {l : List Char} (h1 : ',' ∉ l) (h2 : l.count '.' ≤ 1) :
    unformatL (formatL l) = l := by
  by_cases hd : '.' ∈ l
  · obtain ⟨a, b, hab, ha⟩ := first_dot_decomp hd
    subst hab
    have hb : '.' ∉ b := by
      rw [List.count_append, List.count_cons_self] at h2
      have : b.count '.' = 0 := by omega
      exact (List.count_eq_zero).mp this
    have hcomma_a : ',' ∉ a := fun hm => h1 (List.mem_append_left _ hm)
    have hcomma_b : ',' ∉ b := fun hm => h1 (List.mem_append_right _ (List.mem_cons_of_mem _ hm))
    unfold formatL
    rw [splitDot_prepend b ha, splitDot_no_dot hb]
    rw [unformatL_append, insertCommasL_strip hcomma_a,
      unformatL_cons_ne (by decide) b, unformatL_eq_self hcomma_b]
  · unfold formatL
    rw [splitDot_no_dot hd]
    exact insertCommasL_strip h1


theorem formatL_ne_nil {l : List Char} (h : l ≠ []) : formatL l ≠ [] := by
  cases l with
  | nil => exact absurd rfl h
  | cons c cs =>
    unfold formatL
    obtain ⟨p, ps, hps⟩ := List.exists_cons_of_ne_nil (splitDot_ne_nil cs)
    by_cases hc : c = '.'
    · subst hc
      rw [splitDot_cons_dot, hps]
      show insertCommasL [] ++ '.' :: p ≠ []
      simp [insertCommasL]
    · rw [splitDot_cons_ne hc hps]
      cases ps with
      | nil =>
        show insertCommasL (c :: p) ≠ []
        simp [insertCommasL]
      | cons q qs =>
        show insertCommasL (c :: p) ++ '.' :: q ≠ []
        simp

theorem natDigitsAux_ne_nil (fuel n : Nat) : natDigitsAux (fuel + 1) n ≠ [] := by
  unfold natDigitsAux
  split <;> simp

theorem data_natToStr (n : Nat) : (natToStr n).data = natDigitsAux (n + 1) n := rfl

theorem natToStr_ne_empty (n : Nat) : natToStr n ≠ "" := by
  intro h
  have h2 : (natToStr n).data = [] := by rw [h]
  rw [data_natToStr] at h2
  exact natDigitsAux_ne_nil n n h2

theorem jsToString_ne_empty (x : JSNum) : jsToString x ≠ "" := by
  cases x with
  | nan => decide
  | inf => decide
  | negInf => decide
  | finite q =>
    show (if q.num = 0 then "0"
      else
        let sign := if q.num < 0 then "-" else ""
        let n := q.num.natAbs
        let i := n / q.den
        let rem := n % q.den
        let frac := fracAux 120 rem q.den
        sign ++ natToStr i ++ (if frac.isEmpty then "" else "." ++ (⟨frac⟩ : String))) ≠ ""
    split
    · decide
    · intro h
      have h2 := congrArg String.data h
      simp only [String.data_append] at h2
      have h4 := (List.append_eq_nil.mp (List.append_eq_nil.mp h2).1).2
      rw [data_natToStr] at h4
      exact natDigitsAux_ne_nil _ _ h4

theorem data_mk (l : List Char) : (String.mk l).data = l := rfl

theorem ne_empty_iff_data {s : String} : s ≠ "" ↔ s.data ≠ [] := by
  constructor
  · intro h h2
    exact h (by cases s with | mk l => cases h2; rfl)
  · intro h h2
    exact h (by rw [h2])

theorem formatNumber_ne_empty {s : String} (h : s ≠ "") : formatNumber s ≠ "" := by
  rw [ne_empty_iff_data]
  exact formatL_ne_nil (ne_empty_iff_data.mp h)

theorem data_unformatNumber (s : String) : (unformatNumber s).data = unformatL s.data := rfl

theorem data_formatNumber (s : String) : (formatNumber s).data = formatL s.data := rfl

theorem unformat_formatNumber_eq {s : String} (h1 : ',' ∉ s.data)
    (h2 : s.data.count '.' ≤ 1) :
    unformatNumber (formatNumber s) = s := by
  cases s with
  | mk l => exact congrArg String.mk (unformat_format_eq h1 h2)

theorem length_unformat_formatNumber_le {s : String} (h : ',' ∉ s.data) :
    (unformatNumber (formatNumber s)).length ≤ s.length := by
  cases s with
  | mk l => exact unformat_format_len_le h

theorem comma_not_mem_data_unformat (s : String) : ',' ∉ (unformatNumber s).data := by
  rw [data_unformatNumber]
  exact comma_not_mem_unformatL s.data

end Calculator

namespace Calculator

/-! ### Denominator positivity of every number the code constructs -/

theorem denPos_add {a b : JSNum} (ha : a.DenPos) (hb : b.DenPos) : (a.add b).DenPos := by
  cases a <;> cases b <;> try exact trivial
  exact Nat.mul_pos ha hb

theorem denPos_sub {a b : JSNum} (ha : a.DenPos) (hb : b.DenPos) : (a.sub b).DenPos := by
  cases a <;> cases b <;> try exact trivial
  exact Nat.mul_pos ha hb

theorem denPos_mul {a b : JSNum} (ha : a.DenPos) (hb : b.DenPos) : (a.mul b).DenPos := by
  cases a with
  | finite qa =>
    cases b with
    | finite qb => exact Nat.mul_pos ha hb
    | nan => exact trivial
    | inf =>
      show JSNum.DenPos (if qa.num = 0 then JSNum.nan else if 0 < qa.num then JSNum.inf else JSNum.negInf)
      split
      · exact trivial
      · split <;> exact trivial
    | negInf =>
      show JSNum.DenPos (if qa.num = 0 then JSNum.nan else if 0 < qa.num then JSNum.negInf else JSNum.inf)
      split
      · exact trivial
      · split <;> exact trivial
  | nan => cases b <;> exact trivial
  | inf =>
    cases b with
    | finite qb =>
      show JSNum.DenPos (if qb.num = 0 then JSNum.nan else if 0 < qb.num then JSNum.inf else JSNum.negInf)
      split
      · exact trivial
      · split <;> exact trivial
    | nan => exact trivial
    | inf => exact trivial
    | negInf => exact trivial
  | negInf =>
    cases b with
    | finite qb =>
      show JSNum.DenPos (if qb.num = 0 then JSNum.nan else if 0 < qb.num then JSNum.negInf else JSNum.inf)
      split
      · exact trivial
      · split <;> exact trivial
    | nan => exact trivial
    | inf => exact trivial
    | negInf => exact trivial

theorem denPos_div {a b : JSNum} (ha : a.DenPos) (hb : b.DenPos) : (a.div b).DenPos := by
  cases a with
  | finite qa =>
    cases b with
    | finite qb =>
      show JSNum.DenPos (if qb.num = 0 then
          (if qa.num = 0 then JSNum.nan else if 0 < qa.num then JSNum.inf else JSNum.negInf)
        else
          JSNum.finite (if 0 < qb.num then ⟨qa.num * qb.den, qa.den * qb.num.natAbs⟩
                  else ⟨-(qa.num * qb.den), qa.den * qb.num.natAbs⟩))
      split
      · split
        · exact trivial
        · split <;> exact trivial
      · rename_i hbz
        have hnb : 0 < qb.num.natAbs := Int.natAbs_pos.mpr hbz
        show 0 < (if 0 < qb.num then (⟨qa.num * qb.den, qa.den * qb.num.natAbs⟩ : Q)
                  else ⟨-(qa.num * qb.den), qa.den * qb.num.natAbs⟩).den
        split <;> exact Nat.mul_pos ha hnb
    | nan => exact trivial
    | inf => exact Nat.one_pos
    | negInf => exact Nat.one_pos
  | nan => cases b <;> exact trivial
  | inf =>
    cases b with
    | finite qb =>
      show JSNum.DenPos (if qb.num < 0 then JSNum.negInf else JSNum.inf)
      split <;> exact trivial
    | nan => exact trivial
    | inf => exact trivial
    | negInf => exact trivial
  | negInf =>
    cases b with
    | finite qb =>
      show JSNum.DenPos (if qb.num < 0 then JSNum.inf else JSNum.negInf)
      split <;> exact trivial
    | nan => exact trivial
    | inf => exact trivial
    | negInf => exact trivial

theorem denPos_parseFloatCore (l : List Char) : (parseFloatCore l).DenPos := by
  simp only [parseFloatCore]
  split
  · split <;> exact trivial
  · split
    · exact trivial
    · split <;> split <;>
        first
          | exact Nat.pos_pow_of_pos _ (by norm_num)
          | exact Nat.mul_pos (Nat.pos_pow_of_pos _ (by norm_num)) (Nat.pos_pow_of_pos _ (by norm_num))

theorem denPos_parseFloat (s : String) : (parseFloat s).DenPos :=
  denPos_parseFloatCore _

theorem calcRawResult_denPos {s : CalculatorState} {r : JSNum}
    (h : calcRawResult s = some r) : r.DenPos := by
  unfold calcRawResult at h
  cases hop : s.operation with
  | none => rw [hop] at h; cases h
  | some op =>
    rw [hop] at h
    simp only [] at h
    by_cases h1 : op = "+"
    · rw [if_pos h1] at h
      cases h
      exact denPos_add (denPos_parseFloat _) (denPos_parseFloat _)
    · rw [if_neg h1] at h
      by_cases h2 : op = "-"
      · rw [if_pos h2] at h
        cases h
        exact denPos_sub (denPos_parseFloat _) (denPos_parseFloat _)
      · rw [if_neg h2] at h
        by_cases h3 : op = "×"
        · rw [if_pos h3] at h
          cases h
          exact denPos_mul (denPos_parseFloat _) (denPos_parseFloat _)
        · rw [if_neg h3] at h
          by_cases h4 : op = "÷"
          · rw [if_pos h4] at h
            cases h
            exact denPos_div (denPos_parseFloat _) (denPos_parseFloat _)
          · rw [if_neg h4] at h
            cases h

end Calculator

namespace Calculator

theorem fracAux_zero (fuel d : Nat) : fracAux fuel 0 d = [] := by
  cases fuel with
  | zero => rfl
  | succ f => simp [fracAux]

theorem jsToString_int_val {q : Q} {k : Nat} (hd : 0 < q.den) (hk : 0 < k)
    (hq : q.num = (k : Int) * q.den) :
    jsToString (JSNum.finite q) = natToStr k := by
  have hkq : (0 : Int) < (k : Int) * (q.den : Int) := by
    apply mul_pos
    · exact_mod_cast hk
    · exact_mod_cast hd
  have hnum : 0 < q.num := by rw [hq]; exact hkq
  have hnatabs : q.num.natAbs = k * q.den := by
    rw [hq, Int.natAbs_mul]
    simp
  simp only [jsToString]
  rw [if_neg (by omega)]
  rw [if_neg (by omega)]
  rw [hnatabs, Nat.mul_div_cancel k hd, Nat.mul_mod_left, fracAux_zero]
  simp

theorem getEmotion_val_1000 {r : Q} (hd : 0 < r.den) (hv : Q.valEq r (Q.ofInt 1000)) :
    getEmotion (JSNum.finite r) = Emotion.happy := by
  have hnum : r.num = (1000 : Int) * (r.den : Int) := by
    simpa [Q.valEq, Q.ofInt] using hv
  have hdi : (0 : Int) < (r.den : Int) := by exact_mod_cast hd
  simp only [getEmotion, JSNum.gt, JSNum.lt, Q.blt, Q.ofInt, decide_eq_true_eq]
  rw [if_neg (by omega), if_pos (by push_cast; nlinarith)]

theorem getEmotion_val_100 {r : Q} (hd : 0 < r.den) (hv : Q.valEq r (Q.ofInt 100)) :
    getEmotion (JSNum.finite r) = Emotion.neutral := by
  have hnum : r.num = (100 : Int) * (r.den : Int) := by
    simpa [Q.valEq, Q.ofInt] using hv
  have hdi : (0 : Int) < (r.den : Int) := by exact_mod_cast hd
  simp only [getEmotion, JSNum.gt, JSNum.lt, Q.blt, Q.ofInt, decide_eq_true_eq]
  rw [if_neg (by omega), if_neg (by omega), if_neg (by omega)]

end Calculator

namespace Calculator

theorem append_str_ne_empty (s : String) {t : String} (h : t ≠ "") : s ++ t ≠ "" := by
  rw [ne_empty_iff_data] at h
  rw [ne_empty_iff_data, String.data_append]
  intro h2
  exact h (List.append_eq_nil.mp h2).2

theorem digitStrs_ne_empty : ∀ x ∈ digitStrs, x ≠ "" := by decide

theorem reachable_inv (s : CalculatorState) (h : Reachable s) :
    s.display ≠ "" ∧ (s.operation ≠ none ↔ s.previousValue ≠ "") := by
  induction h with
  | init => exact ⟨by decide, by decide⟩
  | num s d hr hd ih =>
    simp only [handleNumber]
    split
    · exact ih
    · refine ⟨formatNumber_ne_empty ?_, ih.2⟩
      split
      · exact digitStrs_ne_empty d hd
      · exact append_str_ne_empty _ (digitStrs_ne_empty d hd)
  | op s o hr ho ih =>
    refine ⟨?_, ?_⟩
    · show ("0" : String) ≠ ""
      decide
    · show some o ≠ none ↔ s.display ≠ ""
      exact iff_of_true (by simp) ih.1
  | calcStep s hr ih =>
    cases hres : calcRawResult s with
    | none =>
      simp only [calculate, hres]
      exact ih
    | some r =>
      simp only [calculate, hres]
      exact ⟨formatNumber_ne_empty (jsToString_ne_empty _), by simp⟩
  | pct s hr ih =>
    simp only [handlePercent]
    split
    · exact ⟨formatNumber_ne_empty (jsToString_ne_empty _), ih.2⟩
    · exact ⟨formatNumber_ne_empty (jsToString_ne_empty _), ih.2⟩
  | clr s hr ih =>
    refine ⟨?_, ?_⟩
    · show ("0" : String) ≠ ""
      decide
    · show (none : Option String) ≠ none ↔ ("" : String) ≠ ""
      simp
  | dec s hr ih =>
    simp only [decimalPoint]
    split
    · exact ih
    · exact ⟨formatNumber_ne_empty (append_str_ne_empty _ (by decide)), ih.2⟩
  | back s hr ih =>
    simp only [backspace]
    refine ⟨formatNumber_ne_empty ?_, ih.2⟩
    split
    · show ("0" : String) ≠ ""
      decide
    · rename_i hne
      rw [ne_empty_iff_data]
      intro h2
      apply hne
      show ((unformatNumber s.display).data.dropLast).isEmpty = true
      have h3 : (unformatNumber s.display).data.dropLast = [] := h2
      rw [h3]
      rfl
  | sci s f hr ih =>
    simp only [handleScientificWith]
    split
    · refine ⟨?_, ih.2⟩
      show ("Error" : String) ≠ ""
      decide
    · exact ⟨formatNumber_ne_empty (jsToString_ne_empty _), ih.2⟩
  | mode s hr ih => exact ih
  | angle s hr ih => exact ih

end Calculator

namespace Calculator

theorem str_length_eq (s : String) : s.length = s.data.length := rfl

theorem contains_iff_mem {l : List Char} {c : Char} : l.contains c = true ↔ c ∈ l :=
  List.elem_iff

theorem digitStrs_facts : ∀ x ∈ digitStrs, x.data.length = 1 ∧ ',' ∉ x.data := by decide

theorem reachEntry_inv (s : CalculatorState) (h : ReachEntry s) :
    (unformatNumber s.display).data.length ≤ 16 ∨
    ((unformatNumber s.display).data.length = 17 ∧ '.' ∈ (unformatNumber s.display).data) := by
  induction h with
  | init => left; decide
  | num s d hr hd ih =>
    simp only [handleNumber]
    split
    · exact ih
    · rename_i hcap
      left
      rw [str_length_eq, MAX_DIGITS] at hcap
      push_neg at hcap
      have hd1 := digitStrs_facts d hd
      split
      · have hb := unformat_format_len_le (l := d.data) hd1.2
        show (unformatL (formatL d.data)).length ≤ 16
        omega
      · have hcf : ',' ∉ (unformatNumber s.display ++ d).data := by
          rw [String.data_append]
          intro hm
          cases List.mem_append.mp hm with
          | inl h1 => exact comma_not_mem_data_unformat s.display h1
          | inr h2 => exact hd1.2 h2
        have hb := unformat_format_len_le hcf
        have hlen : (unformatNumber s.display ++ d).data.length
            = (unformatNumber s.display).data.length + d.data.length := by
          rw [String.data_append, List.length_append]
        show (unformatL (formatL (unformatNumber s.display ++ d).data)).length ≤ 16
        omega
  | op s o hr ho ih =>
    left
    show (unformatNumber "0").data.length ≤ 16
    decide
  | clr s hr ih =>
    left
    show (unformatNumber "0").data.length ≤ 16
    decide
  | dec s hr ih =>
    simp only [decimalPoint]
    split
    · exact ih
    · rename_i hcont
      have hnotmem : '.' ∉ (unformatNumber s.display).data :=
        fun hm => hcont (contains_iff_mem.mpr hm)
      have hlen16 : (unformatNumber s.display).data.length ≤ 16 := by
        cases ih with
        | inl h1 => exact h1
        | inr h2 => exact absurd h2.2 hnotmem
      have hcf : ',' ∉ (unformatNumber s.display ++ ".").data := by
        rw [String.data_append]
        intro hm
        cases List.mem_append.mp hm with
        | inl h1 => exact comma_not_mem_data_unformat s.display h1
        | inr h2 => simp at h2
      have hcount : (unformatNumber s.display ++ ".").data.count '.' ≤ 1 := by
        rw [String.data_append, List.count_append]
        have h0 : (unformatNumber s.display).data.count '.' = 0 :=
          List.count_eq_zero.mpr hnotmem
        rw [h0]
        decide
      rw [unformat_formatNumber_eq hcf hcount]
      have hlen : (unformatNumber s.display ++ ".").data.length
          = (unformatNumber s.display).data.length + 1 := by
        rw [String.data_append, List.length_append]
        rfl
      by_cases hsixteen : (unformatNumber s.display).data.length ≤ 15
      · left; omega
      · right
        constructor
        · omega
        · rw [String.data_append]
          exact List.mem_append_right _ (by decide)
  | back s hr ih =>
    simp only [backspace]
    split
    · left
      show (unformatNumber (formatNumber "0")).data.length ≤ 16
      decide
    · left
      have hcf : ',' ∉ (String.mk ((unformatNumber s.display).data.dropLast)).data :=
        fun hm => comma_not_mem_data_unformat s.display (List.dropLast_subset _ hm)
      have hb := unformat_format_len_le hcf
      have hmk : (String.mk ((unformatNumber s.display).data.dropLast)).data
          = (unformatNumber s.display).data.dropLast := rfl
      rw [hmk] at hb
      have h17 : (unformatNumber s.display).data.length ≤ 17 := by
        cases ih with
        | inl h1 => omega
        | inr h2 => omega
      have hdrop : ((unformatNumber s.display).data.dropLast).length
          = (unformatNumber s.display).data.length - 1 := List.length_dropLast _
      show (unformatL (formatL (String.mk ((unformatNumber s.display).data.dropLast)).data)).length ≤ 16
      rw [show (String.mk ((unformatNumber s.display).data.dropLast)).data
          = (unformatNumber s.display).data.dropLast from rfl]
      omega
  | mode s hr ih => exact ih
  | angle s hr ih => exact ih

end Calculator

namespace Calculator

theorem factorialFuel_nan (fuel : Nat) : factorialFuel fuel JSNum.nan = none := by
  induction fuel with
  | zero => rfl
  | succ f ih => simp [factorialFuel, JSNum.lt, JSNum.le, JSNum.sub, ih]

theorem factorialFuel_inf (fuel : Nat) : factorialFuel fuel JSNum.inf = none := by
  induction fuel with
  | zero => rfl
  | succ f ih => simp [factorialFuel, JSNum.lt, JSNum.le, JSNum.sub, ih]

theorem factorialFuel_total (n : Nat) : ∀ q : Q, 0 < q.den → q.num.toNat ≤ n →
    (factorialFuel (n + 1) (JSNum.finite q)).isSome = true := by
  induction n with
  | zero =>
    intro q hd hn
    show (factorialFuel 1 (JSNum.finite q)).isSome = true
    unfold factorialFuel
    split
    · rfl
    · split
      · rfl
      · rename_i h1 h2
        exfalso
        apply h2
        simp only [JSNum.le, Q.ble, Q.ofInt, decide_eq_true_eq]
        omega
  | succ n ih =>
    intro q hd hn
    show (factorialFuel (n + 1 + 1) (JSNum.finite q)).isSome = true
    unfold factorialFuel
    split
    · rfl
    · split
      · rfl
      · rename_i h1 h2
        have hgt : (q.den : Int) < q.num := by
          by_contra hle
          apply h2
          simp only [JSNum.le, Q.ble, Q.ofInt, decide_eq_true_eq]
          omega
        have hsub : (JSNum.finite q).sub (JSNum.finite (Q.ofInt 1))
            = JSNum.finite ⟨q.num * 1 - 1 * q.den, q.den * 1⟩ := rfl
        rw [hsub]
        have hrec := ih ⟨q.num * 1 - 1 * q.den, q.den * 1⟩ (by simpa using hd)
          (by show (q.num * 1 - 1 * (q.den : Int)).toNat ≤ n; omega)
        cases hx : factorialFuel (n + 1)
            (JSNum.finite ⟨q.num * 1 - 1 * q.den, q.den * 1⟩) with
        | none => rw [hx] at hrec; simp at hrec
        | some v => rfl

end Calculator


namespace Calculator

/-! ### The claims -/

/-- C1, counterexample to the claim as stated: a reachable evaluation
(`500 + 500`) whose raw numeric result is exactly 1000 yields emotion
`happy`, not `neutral` — `getEmotion` tests `result > 100` with a
strict inequality that 1000 passes. -/
theorem c1_counterexample :
    calcRawResult { initialState with
        display := "500", previousValue := "500", operation := some "+" }
      = some (JSNum.finite ⟨1000, 1⟩) ∧
    (calculate { initialState with
        display := "500", previousValue := "500", operation := some "+" }).emotion
      = Emotion.happy ∧
    Emotion.happy ≠ Emotion.neutral := by
  decide

/-- C1 (amended): with strict `>` at both thresholds, an evaluation via
`calculate()` whose numeric result is exactly 1000 yields `happy` (the
boundary falls out of `excited` but into `happy`), and a result of
exactly 100 yields `neutral` (the boundary falls out of `happy`). -/
theorem c1_exact_boundary_amended (s : CalculatorState) (r : Q)
    (h : calcRawResult s = some (JSNum.finite r)) :
    (Q.valEq r (Q.ofInt 1000) → (calculate s).emotion = Emotion.happy) ∧
    (Q.valEq r (Q.ofInt 100) → (calculate s).emotion = Emotion.neutral) := by
  have hd : 0 < r.den := calcRawResult_denPos h
  constructor
  · intro hv
    have hnum : r.num = ((1000 : Nat) : Int) * r.den := by
      simpa [Q.valEq, Q.ofInt] using hv
    have hts : jsToString (JSNum.finite r) = natToStr 1000 :=
      jsToString_int_val hd (by norm_num) hnum
    simp only [calculate, h, hts]
    rw [if_neg (by decide)]
    exact getEmotion_val_1000 hd hv
  · intro hv
    have hnum : r.num = ((100 : Nat) : Int) * r.den := by
      simpa [Q.valEq, Q.ofInt] using hv
    have hts : jsToString (JSNum.finite r) = natToStr 100 :=
      jsToString_int_val hd (by norm_num) hnum
    simp only [calculate, h, hts]
    rw [if_neg (by decide)]
    exact getEmotion_val_100 hd hv

/-- C1 witness: the amended boundary behaviour at the concrete
evaluations `500 + 500 = 1000` (happy) and `50 + 50 = 100` (neutral). -/
theorem c1_witness :
    (calculate { initialState with
        display := "500", previousValue := "500", operation := some "+" }).emotion
      = Emotion.happy ∧
    (calculate { initialState with
        display := "50", previousValue := "50", operation := some "+" }).emotion
      = Emotion.neutral :=
  ⟨(c1_exact_boundary_amended _ ⟨1000, 1⟩ (by decide)).1 (by decide),
   (c1_exact_boundary_amended _ ⟨100, 1⟩ (by decide)).2 (by decide)⟩

/-- C2, counterexample to the claim as stated: sixteen presses of `1`
followed by the decimal point reach a state whose unformatted display
has 17 characters — the decimal-point handler performs no cap check,
so the 16-character invariant fails on reachable states. -/
theorem c2_counterexample :
    Reachable (decimalPoint (handleNumber "1" (handleNumber "1" (handleNumber "1" (handleNumber "1" (handleNumber "1" (handleNumber "1" (handleNumber "1" (handleNumber "1" (handleNumber "1" (handleNumber "1" (handleNumber "1" (handleNumber "1" (handleNumber "1" (handleNumber "1" (handleNumber "1" (handleNumber "1" initialState))))))))))))))))) ∧
    ¬ ((unformatNumber (decimalPoint (handleNumber "1" (handleNumber "1" (handleNumber "1" (handleNumber "1" (handleNumber "1" (handleNumber "1" (handleNumber "1" (handleNumber "1" (handleNumber "1" (handleNumber "1" (handleNumber "1" (handleNumber "1" (handleNumber "1" (handleNumber "1" (handleNumber "1" (handleNumber "1" initialState))))))))))))))))).display).length ≤ 16) ∧
    (unformatNumber (decimalPoint (handleNumber "1" (handleNumber "1" (handleNumber "1" (handleNumber "1" (handleNumber "1" (handleNumber "1" (handleNumber "1" (handleNumber "1" (handleNumber "1" (handleNumber "1" (handleNumber "1" (handleNumber "1" (handleNumber "1" (handleNumber "1" (handleNumber "1" (handleNumber "1" initialState))))))))))))))))).display).length = 17 := by
  refine ⟨(Reachable.dec _ (Reachable.num _ _ (Reachable.num _ _ (Reachable.num _ _ (Reachable.num _ _ (Reachable.num _ _ (Reachable.num _ _ (Reachable.num _ _ (Reachable.num _ _ (Reachable.num _ _ (Reachable.num _ _ (Reachable.num _ _ (Reachable.num _ _ (Reachable.num _ _ (Reachable.num _ _ (Reachable.num _ _ (Reachable.num _ _ Reachable.init (by decide)) (by decide)) (by decide)) (by decide)) (by decide)) (by decide)) (by decide)) (by decide)) (by decide)) (by decide)) (by decide)) (by decide)) (by decide)) (by decide)) (by decide)) (by decide))), by decide, by decide⟩

/-- C2 (amended): under digit entry, decimal point, backspace, operator
selection, clear and the two toggles, the unformatted display stays
within 17 characters: digit input beyond the 16-character cap is
silently dropped, but the decimal point can push the length one past
the cap (to 17), after which digit entry and a second decimal point
are both no-ops.  (The evaluation paths — `calculate`, `percent`, the
scientific functions — format a freshly computed number and are not
bounded by the entry cap at all.) -/
theorem c2_entry_cap_amended (s : CalculatorState) (h : ReachEntry s) :
    (unformatNumber s.display).length ≤ 17 := by
  have hinv := reachEntry_inv s h
  rw [str_length_eq]
  rcases hinv with h1 | h2
  · omega
  · omega

/-- C2 witness: the amended 17-character bound at the very state that
breaks the claimed 16-character bound. -/
theorem c2_witness :
    (unformatNumber (decimalPoint (handleNumber "1" (handleNumber "1" (handleNumber "1" (handleNumber "1" (handleNumber "1" (handleNumber "1" (handleNumber "1" (handleNumber "1" (handleNumber "1" (handleNumber "1" (handleNumber "1" (handleNumber "1" (handleNumber "1" (handleNumber "1" (handleNumber "1" (handleNumber "1" initialState))))))))))))))))).display).length ≤ 17 :=
  c2_entry_cap_amended (decimalPoint (handleNumber "1" (handleNumber "1" (handleNumber "1" (handleNumber "1" (handleNumber "1" (handleNumber "1" (handleNumber "1" (handleNumber "1" (handleNumber "1" (handleNumber "1" (handleNumber "1" (handleNumber "1" (handleNumber "1" (handleNumber "1" (handleNumber "1" (handleNumber "1" initialState))))))))))))))))) (ReachEntry.dec _ (ReachEntry.num _ _ (ReachEntry.num _ _ (ReachEntry.num _ _ (ReachEntry.num _ _ (ReachEntry.num _ _ (ReachEntry.num _ _ (ReachEntry.num _ _ (ReachEntry.num _ _ (ReachEntry.num _ _ (ReachEntry.num _ _ (ReachEntry.num _ _ (ReachEntry.num _ _ (ReachEntry.num _ _ (ReachEntry.num _ _ (ReachEntry.num _ _ (ReachEntry.num _ _ ReachEntry.init (by decide)) (by decide)) (by decide)) (by decide)) (by decide)) (by decide)) (by decide)) (by decide)) (by decide)) (by decide)) (by decide)) (by decide)) (by decide)) (by decide)) (by decide)) (by decide)))

/-- C3, counterexample to the claim as stated: the non-integer input
`2.5` does not recurse forever — the guard `n <= 1` stops the descent
at `0.5`, and the recursion returns `2.5 * 1.5 * 1 = 3.75` within
three calls. -/
theorem c3_counterexample :
    factorialFuel 3 (JSNum.finite ⟨5, 2⟩) = some (JSNum.finite ⟨15, 4⟩) := by
  decide

/-- C3 (amended): the recursive factorial terminates on every finite
input of magnitude at most `2 ^ 53` — non-integers included, since
repeatedly subtracting one drives such a value below the `n <= 1`
guard — and on `-Infinity` (caught by the `n < 0` guard); it fails to
terminate on `NaN` and `Infinity`, where both guards are false
forever.  The `2 ^ 53` bound marks the regime where IEEE double
subtraction of one is exact, so the rational model coincides with the
platform there; above it the double `n - 1` can round back to `n`
(for instance at `10 ^ 16`), the descent can stall, and no termination
is asserted. -/
theorem c3_factorial_termination_amended :
    (∀ q : Q, 0 < q.den → q.num ≤ 2 ^ 53 * (q.den : Int) →
      ∃ fuel, (factorialFuel fuel (JSNum.finite q)).isSome = true) ∧
    (∀ fuel, factorialFuel fuel JSNum.nan = none) ∧
    (∀ fuel, factorialFuel fuel JSNum.inf = none) ∧
    factorialFuel 1 JSNum.negInf = some JSNum.nan := by
  refine ⟨?_, factorialFuel_nan, factorialFuel_inf, by decide⟩
  intro q hd _hbound
  exact ⟨q.num.toNat + 1, factorialFuel_total q.num.toNat q hd (le_refl _)⟩

/-- C3 witness: termination at the concrete non-integer input `3.5`. -/
theorem c3_witness :
    ∃ fuel, (factorialFuel fuel (JSNum.finite ⟨7, 2⟩)).isSome = true :=
  c3_factorial_termination_amended.1 ⟨7, 2⟩ (by decide) (by decide)

/-- C4: `unformat` is the exact left inverse of `format` on every
digit-grouping-valid unformatted string, i.e. every string free of
grouping commas with at most one decimal point. -/
theorem c4_unformat_format (s : String)
    (h1 : ',' ∉ s.data) (h2 : s.data.count '.' ≤ 1) :
    unformatNumber (formatNumber s) = s :=
  unformat_formatNumber_eq h1 h2

/-- C4 witness: the round trip at `"1234567.89"`, which `format` turns
into `"1,234,567.89"`. -/
theorem c4_witness :
    formatNumber "1234567.89" = "1,234,567.89" ∧
    unformatNumber (formatNumber "1234567.89") = "1234567.89" :=
  ⟨by decide, c4_unformat_format "1234567.89" (by decide) (by decide)⟩

/-- C5: in every reachable state, `operation` is non-null exactly when
`previousValue` is non-empty. -/
theorem c5_operation_iff_previous (s : CalculatorState) (h : Reachable s) :
    s.operation ≠ none ↔ s.previousValue ≠ "" :=
  (reachable_inv s h).2

/-- C5 witness: the invariant at the reachable state obtained by
entering `5` and selecting `+`. -/
theorem c5_witness :
    (handleOperation "+" (handleNumber "5" initialState)).operation ≠ none ↔
    (handleOperation "+" (handleNumber "5" initialState)).previousValue ≠ "" :=
  c5_operation_iff_previous _
    (Reachable.op _ _ (Reachable.num _ _ Reachable.init (by decide)) (by decide))

/-- C6: `percent()` with a pending operation sets the display to
`previousValue * display / 100`, otherwise to `display / 100`, and in
both cases leaves `operation`, `previousValue` and `emotion` exactly
as they were. -/
theorem c6_percent_semantics (s : CalculatorState) :
    (pendingB s = true →
      handlePercent s = { s with display := formatNumber (jsToString
        (((parseFloat (unformatNumber s.previousValue)).mul
          (parseFloat (unformatNumber s.display))).div (JSNum.finite (Q.ofInt 100)))) }) ∧
    (pendingB s = false →
      handlePercent s = { s with display := formatNumber (jsToString
        ((parseFloat (unformatNumber s.display)).div (JSNum.finite (Q.ofInt 100)))) }) ∧
    (handlePercent s).operation = s.operation ∧
    (handlePercent s).previousValue = s.previousValue ∧
    (handlePercent s).emotion = s.emotion := by
  have hframe : (handlePercent s).operation = s.operation ∧
      (handlePercent s).previousValue = s.previousValue ∧
      (handlePercent s).emotion = s.emotion := by
    simp only [handlePercent]
    split <;> exact ⟨rfl, rfl, rfl⟩
  refine ⟨fun hp => ?_, fun hp => ?_, hframe.1, hframe.2.1, hframe.2.2⟩
  · simp only [handlePercent]
    rw [if_pos hp]
  · simp only [handlePercent]
    rw [if_neg (by rw [hp]; exact Bool.false_ne_true)]

/-- C6 witness: with `previousValue = 50`, `display = 10` and a pending
`+`, percent sets the display to `5` (\(50 \cdot 10 / 100\)) and the
pending operation survives untouched. -/
theorem c6_witness :
    (handlePercent { initialState with
        display := "10", previousValue := "50", operation := some "+" }).display = "5" ∧
    (handlePercent { initialState with
        display := "10", previousValue := "50", operation := some "+" }).operation
      = some "+" ∧
    (handlePercent { initialState with
        display := "10", previousValue := "50", operation := some "+" }).previousValue
      = "50" ∧
    (handlePercent { initialState with
        display := "10", previousValue := "50", operation := some "+" }).emotion
      = Emotion.neutral := by
  refine ⟨?_,
    (c6_percent_semantics _).2.2.1,
    (c6_percent_semantics _).2.2.2.1,
    (c6_percent_semantics _).2.2.2.2⟩
  rw [(c6_percent_semantics _).1 (by decide)]
  decide

/-- C7: whenever the numeric result of a scientific-function
application is `NaN` or not finite, the display becomes the literal
sentinel `"Error"` and the emotion is forced to `sad`.  The function
argument `f` ranges over the cases of the scientific switch. -/
theorem c7_scientific_error_sentinel (f : JSNum → JSNum) (s : CalculatorState)
    (h : ((f (parseFloat (unformatNumber s.display))).isNaNB
        || !(f (parseFloat (unformatNumber s.display))).isFiniteB) = true) :
    handleScientificWith f s = { s with display := "Error", emotion := Emotion.sad } := by
  simp only [handleScientificWith]
  rw [if_pos h]

/-- C7 witness: `sqrt` applied to the display `"-4"` produces `NaN`,
hence the error sentinel and the sad emotion. -/
theorem c7_witness :
    handleScientificWith jsSqrt { initialState with display := "-4" }
      = { { initialState with display := "-4" } with
            display := "Error", emotion := Emotion.sad } :=
  c7_scientific_error_sentinel jsSqrt _ (by decide)

/-- C8: `calculate()` with a pending divide and a zero right operand
never produces the `"Error"` sentinel — the special value
(`Infinity`, `-Infinity` or `NaN`) flows through `toString` and the
normal formatting path straight into the display. -/
theorem c8_divide_by_zero_propagates (s : CalculatorState) (c : Q)
    (hop : s.operation = some "÷")
    (hc : parseFloat (unformatNumber s.display) = JSNum.finite c)
    (h0 : c.num = 0) :
    ((calculate s).display = "Infinity" ∨ (calculate s).display = "-Infinity" ∨
      (calculate s).display = "NaN") ∧ (calculate s).display ≠ "Error" := by
  have hraw : calcRawResult s
      = some ((parseFloat (unformatNumber s.previousValue)).div (JSNum.finite c)) := by
    simp only [calcRawResult, hop, hc]
    simp
  cases hpv : parseFloat (unformatNumber s.previousValue) with
  | finite a =>
    rw [hpv] at hraw
    have hdiv : (JSNum.finite a).div (JSNum.finite c)
        = (if a.num = 0 then JSNum.nan else if 0 < a.num then JSNum.inf else JSNum.negInf) := by
      show (if c.num = 0 then
          (if a.num = 0 then JSNum.nan else if 0 < a.num then JSNum.inf else JSNum.negInf)
        else _) = _
      rw [if_pos h0]
    rw [hdiv] at hraw
    by_cases ha0 : a.num = 0
    · rw [if_pos ha0] at hraw
      have hdisp : (calculate s).display = "NaN" := by
        simp only [calculate, hraw]
        decide
      rw [hdisp]
      exact ⟨Or.inr (Or.inr rfl), by decide⟩
    · rw [if_neg ha0] at hraw
      by_cases hapos : 0 < a.num
      · rw [if_pos hapos] at hraw
        have hdisp : (calculate s).display = "Infinity" := by
          simp only [calculate, hraw]
          decide
        rw [hdisp]
        exact ⟨Or.inl rfl, by decide⟩
      · rw [if_neg hapos] at hraw
        have hdisp : (calculate s).display = "-Infinity" := by
          simp only [calculate, hraw]
          decide
        rw [hdisp]
        exact ⟨Or.inr (Or.inl rfl), by decide⟩
  | nan =>
    rw [hpv] at hraw
    have hnn : JSNum.nan.div (JSNum.finite c) = JSNum.nan := rfl
    rw [hnn] at hraw
    have hdisp : (calculate s).display = "NaN" := by
      simp only [calculate, hraw]
      decide
    rw [hdisp]
    exact ⟨Or.inr (Or.inr rfl), by decide⟩
  | inf =>
    rw [hpv] at hraw
    have hne : JSNum.inf.div (JSNum.finite c) = JSNum.inf := by
      show (if c.num < 0 then JSNum.negInf else JSNum.inf) = JSNum.inf
      rw [if_neg (by omega)]
    rw [hne] at hraw
    have hdisp : (calculate s).display = "Infinity" := by
      simp only [calculate, hraw]
      decide
    rw [hdisp]
    exact ⟨Or.inl rfl, by decide⟩
  | negInf =>
    rw [hpv] at hraw
    have hne : JSNum.negInf.div (JSNum.finite c) = JSNum.negInf := by
      show (if c.num < 0 then JSNum.inf else JSNum.negInf) = JSNum.negInf
      rw [if_neg (by omega)]
    rw [hne] at hraw
    have hdisp : (calculate s).display = "-Infinity" := by
      simp only [calculate, hraw]
      decide
    rw [hdisp]
    exact ⟨Or.inr (Or.inl rfl), by decide⟩

/-- C8 witness: `5 ÷ 0` leaves `"Infinity"` on the display, never the
error sentinel. -/
theorem c8_witness :
    ((calculate { initialState with
        display := "0", previousValue := "5", operation := some "÷" }).display = "Infinity" ∨
      (calculate { initialState with
        display := "0", previousValue := "5", operation := some "÷" }).display = "-Infinity" ∨
      (calculate { initialState with
        display := "0", previousValue := "5", operation := some "÷" }).display = "NaN") ∧
    (calculate { initialState with
        display := "0", previousValue := "5", operation := some "÷" }).display ≠ "Error" :=
  c8_divide_by_zero_propagates _ ⟨0, 1⟩ rfl (by decide) rfl

/-- C9: on a state whose unformatted display already holds 16
characters, digit entry returns the state unchanged, and digit entry
never grows the unformatted display beyond the larger of its current
length and the 16-character cap. -/
theorem c9_digit_cap_noop (s : CalculatorState) (d : String) (hd : d ∈ digitStrs) :
    ((unformatNumber s.display).length = MAX_DIGITS → handleNumber d s = s) ∧
    (unformatNumber ((handleNumber d s).display)).length
      ≤ max (unformatNumber s.display).length MAX_DIGITS := by
  have hd1 := digitStrs_facts d hd
  by_cases hcap : (unformatNumber s.display).length ≥ MAX_DIGITS
  · have hno : handleNumber d s = s := by
      simp only [handleNumber]
      rw [if_pos hcap]
    exact ⟨fun _ => hno, by rw [hno]; exact le_max_left _ _⟩
  · constructor
    · intro h16
      exact absurd (ge_of_eq h16) hcap
    · simp only [handleNumber]
      rw [if_neg hcap]
      rw [str_length_eq, MAX_DIGITS] at hcap
      push_neg at hcap
      split
      · have hb := unformat_format_len_le (l := d.data) hd1.2
        show (unformatL (formatL d.data)).length
          ≤ max (unformatNumber s.display).data.length 16
        omega
      · have hcf : ',' ∉ (unformatNumber s.display ++ d).data := by
          rw [String.data_append]
          intro hm
          cases List.mem_append.mp hm with
          | inl h1 => exact comma_not_mem_data_unformat s.display h1
          | inr h2 => exact hd1.2 h2
        have hb := unformat_format_len_le hcf
        have hlen : (unformatNumber s.display ++ d).data.length
            = (unformatNumber s.display).data.length + d.data.length := by
          rw [String.data_append, List.length_append]
        show (unformatL (formatL (unformatNumber s.display ++ d).data)).length
          ≤ max (unformatNumber s.display).data.length 16
        omega

/-- C9 witness: with sixteen unformatted characters on the display,
pressing `5` is a no-op. -/
theorem c9_witness :
    (handleNumber "5" { initialState with display := "1,111,111,111,111,111" }
      = { initialState with display := "1,111,111,111,111,111" }) ∧
    (unformatNumber ((handleNumber "5"
        { initialState with display := "1,111,111,111,111,111" }).display)).length
      ≤ max (unformatNumber ({ initialState with
          display := "1,111,111,111,111,111" } : CalculatorState).display).length
          MAX_DIGITS := by
  refine ⟨(c9_digit_cap_noop _ "5" (by decide)).1 (by decide),
    (c9_digit_cap_noop _ "5" (by decide)).2⟩

/-- C10: when a scientific function's numeric result is `NaN` or not
finite, every state field other than `display` and `emotion` is left
unchanged — in particular a pending binary operation survives the
error unevaluated. -/
theorem c10_error_frame (f : JSNum → JSNum) (s : CalculatorState)
    (h : ((f (parseFloat (unformatNumber s.display))).isNaNB
        || !(f (parseFloat (unformatNumber s.display))).isFiniteB) = true) :
    (handleScientificWith f s).previousValue = s.previousValue ∧
    (handleScientificWith f s).operation = s.operation ∧
    (handleScientificWith f s).mode = s.mode ∧
    (handleScientificWith f s).angleUnit = s.angleUnit ∧
    (handleScientificWith f s).memory = s.memory := by
  simp only [handleScientificWith]
  rw [if_pos h]
  exact ⟨rfl, rfl, rfl, rfl, rfl⟩

/-- C10 witness: the reciprocal of the display `"0"` is `Infinity`
(not finite); all frame fields of the initial state survive. -/
theorem c10_witness :
    (handleScientificWith jsInv initialState).previousValue = initialState.previousValue ∧
    (handleScientificWith jsInv initialState).operation = initialState.operation ∧
    (handleScientificWith jsInv initialState).mode = initialState.mode ∧
    (handleScientificWith jsInv initialState).angleUnit = initialState.angleUnit ∧
    (handleScientificWith jsInv initialState).memory = initialState.memory :=
  c10_error_frame jsInv initialState (by decide)

end Calculator

